import Mathlib

/-!
Shallow embedding of the ToDocument Lua doc-comment extractor
(src/src/file_parser.rs) and proofs about it.

Rust strings are modelled as Lean `String`s / `List Char`; the Rust code's
byte indices coincide with code-point indices on the ASCII inputs at issue
(and `remove_annotation` itself already works on a `Vec<char>`).
A Rust `panic!` (the `unwrap()` calls in `is_member_function`, and an
out-of-order slice) is modelled by `Option.none`; `fmt::Error` by `Except`.
-/

namespace ToDocument

/-- The apostrophe character `'` (Lua single-quote delimiter). -/
def squoteChar : Char := Char.ofNat 39

/-- The double-quote character `"`. -/
def dquoteChar : Char := Char.ofNat 34

/-- The backslash character. -/
def bslashChar : Char := Char.ofNat 92

/-- Embeds `is_space_line`: true iff every character is whitespace. -/
def is_space_line (line : String) : Bool :=
  line.data.all Char.isWhitespace

/-- Drop leading whitespace (Rust `str::trim_start`). -/
def trimStartChars (l : List Char) : List Char :=
  l.dropWhile Char.isWhitespace

/-- Drop leading and trailing whitespace (Rust `str::trim`,
or `trim_start().trim_end()`). -/
def trimChars (l : List Char) : List Char :=
  ((l.dropWhile Char.isWhitespace).reverse.dropWhile Char.isWhitespace).reverse

/-- `trimChars` as a `String` operation. -/
def trimStr (s : String) : String := ⟨trimChars s.data⟩

/-- The scanner mode of `LuaFileParser::remove_annotation`: the Rust code
keeps `in_squote`, `in_dquote` and `in_longstring_level : Option<usize>`,
which are mutually exclusive by construction. -/
inductive ScanMode where
  | normal
  | inSQuote
  | inDQuote
  | inLong (level : Nat)
deriving DecidableEq

/-- The forward search for a long-bracket closer of the given level inside a
one-line block comment (the `while k < n` loop of `remove_annotation`).
Returns the remainder of the line after the closer, or `none` when the
closer is absent (in which case the Rust loop `break`s, discarding the
rest of the line). -/
def findCloser (lvl : Nat) : List Char → Option (List Char)
  | [] => none
  | c :: rest =>
    if c = ']' then
      match rest.dropWhile (fun x => x = '=') with
      | d :: rest2 =>
        if (rest.takeWhile (fun x => x = '=')).length = lvl ∧ d = ']' then
          some rest2
        else findCloser lvl rest
      | [] => findCloser lvl rest
    else findCloser lvl rest

/-- After a `--` has been seen in normal mode, the Rust code either finds a
one-line long-bracket block comment and resumes after its closer, or
`break`s (discarding the rest of the line).  `commentRest l` takes the
characters after the two dashes and returns `some rem` (resume at `rem`)
or `none` (every `break` path). -/
def commentRest (l : List Char) : Option (List Char) :=
  match l with
  | e :: rest3 =>
    if e = '[' then
      match rest3.dropWhile (fun x => x = '=') with
      | f :: rest4 =>
        if f = '[' then
          findCloser (rest3.takeWhile (fun x => x = '=')).length rest4
        else none
      | [] => none
    else none
  | [] => none

/-- `findCloser` only ever returns a proper suffix of its input. -/
theorem findCloser_length_lt (lvl : Nat) (l rem : List Char)
    (h : findCloser lvl l = some rem) : rem.length < l.length := by
  induction l generalizing rem with
  | nil => simp [findCloser] at h
  | cons c rest ih =>
    rw [findCloser] at h
    split at h
    · split at h
      next d rest2 heq =>
        split at h
        · injection h with h
          subst h
          have h1 : (rest.dropWhile (fun x => x = '=')).length ≤ rest.length :=
            (List.dropWhile_suffix _).sublist.length_le
          rw [heq] at h1
          simp only [List.length_cons] at h1 ⊢
          omega
        · exact Nat.lt_trans (ih rem h) (Nat.lt_succ_self _)
      next heq => exact Nat.lt_trans (ih rem h) (Nat.lt_succ_self _)
    · exact Nat.lt_trans (ih rem h) (Nat.lt_succ_self _)

/-- `commentRest` only ever returns a proper suffix of its input. -/
theorem commentRest_length_lt (l rem : List Char)
    (h : commentRest l = some rem) : rem.length < l.length := by
  match l with
  | [] => simp [commentRest] at h
  | e :: rest3 =>
    rw [commentRest] at h
    split at h
    · split at h
      next f rest4 heq =>
        split at h
        · have h1 : rem.length < rest4.length := findCloser_length_lt _ _ _ h
          have h2 : (rest3.dropWhile (fun x => x = '=')).length ≤ rest3.length :=
            (List.dropWhile_suffix _).sublist.length_le
          rw [heq] at h2
          simp only [List.length_cons] at h2 ⊢
          omega
        · exact absurd h (by simp)
      next heq => exact absurd h (by simp)
    · exact absurd h (by simp)

/-- The main loop of `LuaFileParser::remove_annotation`, reformulated as a
recursion over the remaining characters (the Rust loop only ever moves its
index `i` forward, so the suffix starting at `i` determines the rest of the
run).  Each branch mirrors one `continue`/`break` path of the Rust loop.
The `fuel` argument only makes the recursion structural: every branch
consumes at least one character together with one unit of fuel, so with
`fuel = l.length` (as `strip_comment` passes it) the `0, _ :: _` case is
never reached. -/
def scan : Nat → ScanMode → List Char → List Char
  | _, _, [] => []
  | 0, _, _ :: _ => []
  | fuel + 1, .inSQuote, c :: rest =>
    if c = bslashChar then
      match rest with
      | [] => [c]
      | d :: rest2 => c :: d :: scan fuel .inSQuote rest2
    else if c = squoteChar then c :: scan fuel .normal rest
    else c :: scan fuel .inSQuote rest
  | fuel + 1, .inDQuote, c :: rest =>
    if c = bslashChar then
      match rest with
      | [] => [c]
      | d :: rest2 => c :: d :: scan fuel .inDQuote rest2
    else if c = dquoteChar then c :: scan fuel .normal rest
    else c :: scan fuel .inDQuote rest
  | fuel + 1, .inLong lvl, c :: rest =>
    if c = ']' ∧ (rest.takeWhile (fun x => x = '=')).length = lvl ∧
        (rest.dropWhile (fun x => x = '=')).head? = some ']' then
      c :: rest.takeWhile (fun x => x = '=') ++
        ']' :: scan fuel .normal (rest.dropWhile (fun x => x = '=')).tail
    else c :: scan fuel (.inLong lvl) rest
  | fuel + 1, .normal, c :: rest =>
    if c = squoteChar then c :: scan fuel .inSQuote rest
    else if c = dquoteChar then c :: scan fuel .inDQuote rest
    else if c = '[' ∧ (rest.dropWhile (fun x => x = '=')).head? = some '[' then
      c :: rest.takeWhile (fun x => x = '=') ++
        '[' :: scan fuel (.inLong (rest.takeWhile (fun x => x = '=')).length)
                 (rest.dropWhile (fun x => x = '=')).tail
    else if c = '-' ∧ rest.head? = some '-' then
      match commentRest rest.tail with
      | some rem => scan fuel .normal rem
      | none => []
    else c :: scan fuel .normal rest

/-- Embeds `LuaFileParser::remove_annotation` (the spec calls it
`strip_comment`): scan in normal mode, then trim both ends
(`out.trim_start().trim_end().to_string()`). -/
def strip_comment (line : String) : String :=
  ⟨trimChars (scan line.data.length .normal line.data)⟩

/-! ## Data model (`InputFileType`, `Parameter`, `Description`, `DocBlock`) -/

/-- Embeds `InputFileType`. -/
inductive InputFileType where
  | None
  | Lua
  | C
  | Cpp
  | Rust
  | Python
deriving DecidableEq

/-- Embeds `InputFileType::to_str`. -/
def InputFileType.to_str : InputFileType → Option String
  | .Lua => some "lua"
  | .C => some "c"
  | .Cpp => some "cpp"
  | .Rust => some "rs"
  | .Python => some "py"
  | .None => some "None"

/-- Embeds `FormulaType`. -/
inductive FormulaType where
  | Inline
  | Block
deriving DecidableEq

/-- Embeds `Parameter` (fields in the Rust declaration order). -/
structure Parameter where
  name : String
  number : Nat
  description : String
  type_name : String
deriving DecidableEq

/-- Embeds `DescriptionType`. -/
inductive DescriptionType where
  | Text (s : String)
  | Code (lang : InputFileType) (s : String)
  | MathFormula (ft : FormulaType) (s : String)
  | BulletList (indent : Int) (s : String)
  | HTMLLink (s : String)
deriving DecidableEq

/-- Embeds `Description`. -/
structure Description where
  dtype : DescriptionType
  content : String
deriving DecidableEq

/-- Embeds `DocBlock` (fields in the Rust declaration order). -/
structure DocBlock where
  signature : String
  brief : String
  note : String
  includes : List String
  parameters : List Parameter
  descriptions : List Description
  ret_value : Option Parameter
  owner_object : String
  is_local : Bool
  is_member : Bool
deriving DecidableEq

/-! ## Tag parser (`LuaFileParser::create_docblock`) -/

/-- Rust `str::splitn(2, char::is_whitespace)`: the text before the first
whitespace character, and (when such a character exists) the text after
that single character. -/
def splitAtWs (l : List Char) : List Char × Option (List Char) :=
  match l.dropWhile (fun c => ¬ c.isWhitespace) with
  | [] => (l.takeWhile (fun c => ¬ c.isWhitespace), Option.none)
  | _ :: rest => (l.takeWhile (fun c => ¬ c.isWhitespace), some rest)

/-- Accumulator loop for `str::split_whitespace` (words separated by runs of
whitespace, no empty words). -/
def wordsAux : List Char → List Char → List (List Char)
  | [], acc => if acc.isEmpty then [] else [acc.reverse]
  | c :: rest, acc =>
    if c.isWhitespace then
      if acc.isEmpty then wordsAux rest []
      else acc.reverse :: wordsAux rest []
    else wordsAux rest (c :: acc)

/-- Rust `str::split_whitespace().collect()`. -/
def splitWhitespace (s : String) : List String :=
  (wordsAux s.data []).map fun w => ⟨w⟩

/-- The per-line `content` computation of `create_docblock`: the substring
from the first `@` if present, else from the first backslash if present,
else the line trimmed at the front with leading `-` runs stripped and
re-trimmed when it was a `--` comment line. -/
def contentOf (l : List Char) : List Char :=
  if l.contains '@' then l.dropWhile (fun c => ¬ c = '@')
  else if l.contains bslashChar then l.dropWhile (fun c => ¬ c = bslashChar)
  else
    let t := l.dropWhile Char.isWhitespace
    if t.take 2 = ['-', '-'] then trimChars (t.dropWhile (fun c => c = '-'))
    else t

/-- The empty `DocBlock` that `create_docblock` starts from. -/
def emptyBlock : DocBlock :=
  ⟨"", "", "", [], [], [], Option.none, "", false, false⟩

/-- One iteration of the `for line in buf` loop of `create_docblock`,
carrying the block built so far and `current_tag`. -/
def docStep (st : DocBlock × String) (line : String) : DocBlock × String :=
  let block := st.1
  let current_tag := st.2
  let content := contentOf line.data
  if content.head? = some '@' then
    let s := splitAtWs content
    let tag : String := ⟨s.1.drop 1⟩
    let body : String := match s.2 with
      | some b => ⟨trimChars b⟩
      | Option.none => ""
    let block' :=
      match tag with
      | "brief" => { block with brief := body }
      | "param" =>
        match splitWhitespace body with
        | t0 :: t1 :: restToks =>
          let p : Parameter :=
            ⟨t0, block.parameters.length, String.intercalate " " restToks, t1⟩
          { block with parameters := block.parameters ++ [p] }
        | _ => block
      | "return" =>
        match splitWhitespace body with
        | t0 :: restToks =>
          let p : Parameter := ⟨"", 0, String.intercalate " " restToks, t0⟩
          { block with ret_value := some p }
        | [] => block
      | "includes" =>
        { block with includes := block.includes ++ (body.splitOn ",").map trimStr }
      | "note" => { block with note := body }
      | "description" => block
      | _ => block
    (block', tag)
  else if content.head? = some bslashChar then
    if current_tag = "description" then
      let s := splitAtWs content
      let subtag : String := ⟨s.1.drop 1⟩
      let body : String := match s.2 with
        | some b => ⟨trimChars b⟩
        | Option.none => ""
      let dt : Option DescriptionType :=
        match subtag with
        | "text" => some (.Text body)
        | "code" => some (.Code .None body)
        | "formula" => some (.MathFormula .Inline body)
        | "list" => some (.BulletList 0 body)
        | "html" => some (.HTMLLink body)
        | _ => Option.none
      match dt with
      | some d => ({ block with descriptions := block.descriptions ++ [⟨d, body⟩] },
                   current_tag)
      | Option.none => (block, current_tag)
    else (block, current_tag)
  else (block, current_tag)

/-- Embeds `LuaFileParser::create_docblock`. -/
def create_docblock (buf : List String) : DocBlock :=
  (buf.foldl docStep (emptyBlock, "")).1


/-! ## Signature classifier and per-file driver (`LuaFileParser::parse`) -/

/-- Embeds `LuaFileParser::is_api_tail`:
`line.ends_with(")") || line.trim_end().ends_with("end")`. -/
def is_api_tail (line : String) : Bool :=
  line.data.getLast? == some ')' ||
    "end".data.isSuffixOf ((line.data.reverse.dropWhile Char.isWhitespace).reverse)

/-- Embeds `LuaFileParser::is_doc_comment`. -/
def is_doc_comment (line : String) : Bool :=
  let t := line.data.dropWhile Char.isWhitespace
  "---@".data.isPrefixOf t || "--@".data.isPrefixOf t || "-- @".data.isPrefixOf t

/-- Embeds `LuaFileParser::extract_owner_object`. -/
def extract_owner_object (line : String) : String :=
  let l := trimChars line.data
  if "local function".data.isPrefixOf l then "local"
  else if "function".data.isPrefixOf l then
    let s := (l.drop 8).dropWhile Char.isWhitespace
    match s.findIdx? (fun c => c == '.' || c == ':') with
    | some idx => ⟨trimChars (s.take idx)⟩
    | Option.none => ""
  else ""

/-- Embeds `LuaFileParser::is_member_function`.  The Rust function calls
`line.find("(").unwrap()` and `line.find(")").unwrap()`, and slices
`&line[left..right]`; the `unwrap` of `None` and an out-of-order slice
panic, modelled as `Option.none`. -/
def is_member_function (line : String) (obj_name : String) : Option Bool :=
  let l := line.data
  if l.contains ':' then some true
  else if l.contains '.' then
    match l.findIdx? (fun c => c == '('), l.findIdx? (fun c => c == ')') with
    | some li, some ri =>
      if li ≤ ri then
        let sub := (l.drop li).take (ri - li)
        match sub.findIdx? (fun c => c == ',') with
        | some ci => some (trimChars ((sub.drop 1).take (ci - 1)) == obj_name.data)
        | Option.none => some (!(trimChars sub).isEmpty && sub == obj_name.data)
      else Option.none
    | _, _ => Option.none
  else some false

/-- The classification step that `parse` performs on a finalized signature
(file_parser.rs lines 507–518 and 536–545): returns
`(owner_object, is_local, is_member)`, or `none` when
`is_member_function` panics. -/
def classify_signature (sig : String) : Option (String × Bool × Bool) :=
  let m := extract_owner_object sig
  if m = "local" then some ("", true, false)
  else (is_member_function sig m).map fun mem => (m, false, mem)

/-- The mutable state of `LuaFileParser::parse` (fields in declaration
order: `line_buf`, `doc_blocks`, `real_code_line`,
`is_mutli_line_function_decl`). -/
structure ParseState where
  line_buf : List String
  doc_blocks : List DocBlock
  real_code_line : String
  is_mutli_line_function_decl : Bool
deriving DecidableEq

/-- The finalization step shared by both declaration-terminated branches of
`parse`: when `line_buf` is non-empty, build a `DocBlock`, attach the
signature and the classification, emit it and clear the buffer; in either
case clear `real_code_line`. -/
def finalize (st : ParseState) : Option ParseState :=
  if st.line_buf.isEmpty then
    some { st with real_code_line := "" }
  else
    let b0 := create_docblock st.line_buf
    let m := extract_owner_object st.real_code_line
    if m = "local" then
      let b := { b0 with
        signature := st.real_code_line
        is_local := true
        is_member := false
        owner_object := "" }
      some { st with
        doc_blocks := st.doc_blocks ++ [b]
        line_buf := []
        real_code_line := "" }
    else
      match is_member_function st.real_code_line m with
      | some mem =>
        let b := { b0 with
          signature := st.real_code_line
          owner_object := m
          is_member := mem }
        some { st with
          doc_blocks := st.doc_blocks ++ [b]
          line_buf := []
          real_code_line := "" }
      | Option.none => Option.none

/-- One iteration of the `for line in reader.lines()` loop of
`LuaFileParser::parse`. -/
def parseStep (st : ParseState) (l : String) : Option ParseState :=
  let is_comment := "--".data.isPrefixOf (l.data.dropWhile Char.isWhitespace)
  if is_doc_comment l || (!st.line_buf.isEmpty && is_comment) then
    some { st with line_buf := st.line_buf ++ [l] }
  else if is_space_line l then
    some { st with line_buf := [], real_code_line := "" }
  else
    let code := strip_comment l
    let ct := code.data.dropWhile Char.isWhitespace
    if "function".data.isPrefixOf ct || "local function".data.isPrefixOf ct then
      if code.data.contains '(' && !(code.data.getLast? == some ')') then
        some { st with
          is_mutli_line_function_decl := true
          real_code_line := st.real_code_line ++ code }
      else if is_api_tail code || code.data.contains ')' then
        finalize { st with real_code_line := st.real_code_line ++ code }
      else some st
    else if st.is_mutli_line_function_decl then
      let st' := { st with real_code_line := st.real_code_line ++ code }
      if is_api_tail code || code.data.contains ')' then
        finalize { st' with is_mutli_line_function_decl := false }
      else some st'
    else
      some { st with line_buf := [] }

/-- Embeds `LuaFileParser::parse` on the decoded lines of the file:
`some` of the emitted `DocBlock`s, or `none` when a panic aborts the
run. -/
def parse (lines : List String) : Option (List DocBlock) := do
  let st ← lines.foldlM parseStep ⟨[], [], "", false⟩
  pure st.doc_blocks


/-! ## Markdown renderer (`MarkdownFormatter`) -/

/-- Rust's `core::fmt::Error` (a unit struct). -/
structure FmtError where
deriving DecidableEq

namespace MarkdownFormatter

/-- Embeds `MarkdownFormatter::format_signature`. -/
def format_signature (signature : String) : String :=
  "```lua\n" ++ signature ++ "\n```\n"

/-- Embeds `MarkdownFormatter::format_includes`. -/
def format_includes (includes : List String) : String :=
  if includes.isEmpty then ""
  else "**Includes:** " ++ String.intercalate ", " includes ++ "\n\n"

/-- Embeds `MarkdownFormatter::format_brief`. -/
def format_brief (brief : String) : String :=
  if brief.isEmpty then ""
  else "**Brief:** " ++ brief ++ "\n\n"

/-- Embeds `MarkdownFormatter::format_parameters`: the Rust code starts from
`"**Parameters:**\n"`, appends one `writeln!`-formatted bullet per
parameter (the write to a `String` cannot fail and its `Result` is
discarded), then a final newline. -/
def format_parameters (params : List Parameter) : String :=
  if params.isEmpty then ""
  else
    (params.foldl
      (fun s p =>
        s ++ "- " ++ p.name ++ " (" ++ p.type_name ++ "): " ++ p.description ++ "\n")
      "**Parameters:**\n") ++ "\n"

/-- Embeds `MarkdownFormatter::format_return`:
`format!("**Returns:** \x7b\x7d (\x7b\x7d): \x7b\x7d", p.name, p.type_name, p.description)`. -/
def format_return (ret : Option Parameter) : String :=
  match ret with
  | some p =>
    "**Returns:** " ++ p.name ++ " (" ++ p.type_name ++ "): " ++ p.description ++ "\n\n"
  | Option.none => ""

/-- Embeds `MarkdownFormatter::format_description_item`. -/
def format_description_item (desc : Description) : String :=
  match desc.dtype with
  | .Text _ => desc.content ++ "\n"
  | .Code lang _ =>
    "```" ++ lang.to_str.getD "" ++ "\n" ++ desc.content ++ "\n```\n"
  | .MathFormula .Inline _ => "$" ++ desc.content ++ "$\n"
  | .MathFormula .Block _ => "$$\n" ++ desc.content ++ "\n$$\n"
  | .BulletList _ _ =>
    let content := trimStr desc.content
    (if "-".data.isPrefixOf content.data then "" else "- ") ++ content ++ "\n"
  | .HTMLLink _ => "[" ++ desc.content ++ "](" ++ desc.content ++ ")\n"

/-- Embeds `MarkdownFormatter::format_descriptions`. -/
def format_descriptions (descriptions : List Description) : String :=
  if descriptions.isEmpty then ""
  else
    (descriptions.foldl (fun s d => s ++ format_description_item d)
      "**Description:**\n\n") ++ "\n"

/-- Embeds `MarkdownFormatter::format_block`: the six sections in order. -/
def format_block (block : DocBlock) : String :=
  format_signature block.signature ++
  format_includes block.includes ++
  format_brief block.brief ++
  format_parameters block.parameters ++
  format_return block.ret_value ++
  format_descriptions block.descriptions

/-- Embeds `MarkdownFormatter::format`: fold over the blocks, a horizontal
rule after each; always returns `Ok`. -/
def format (content : List DocBlock) : Except FmtError String :=
  Except.ok (content.foldl (fun s b => s ++ format_block b ++ "---\n\n") "")

end MarkdownFormatter

/-! ## Scanner deletion-only lemmas (for C10) -/

/-- `findCloser` returns a sublist (in fact a suffix) of its input. -/
theorem findCloser_sublist (lvl : Nat) (l rem : List Char)
    (h : findCloser lvl l = some rem) : List.Sublist rem l := by
  induction l generalizing rem with
  | nil => simp [findCloser] at h
  | cons c rest ih =>
    rw [findCloser] at h
    split at h
    · split at h
      next d rest2 heq =>
        split at h
        · injection h with h
          subst h
          have h1 : List.Sublist (d :: rest2) rest :=
            heq ▸ (List.dropWhile_suffix _).sublist
          exact ((List.sublist_cons_self d rest2).trans h1).trans
            (List.sublist_cons_self c rest)
        · exact (ih rem h).trans (List.sublist_cons_self c rest)
      next heq => exact (ih rem h).trans (List.sublist_cons_self c rest)
    · exact (ih rem h).trans (List.sublist_cons_self c rest)

/-- `commentRest` returns a sublist (in fact a suffix) of its input. -/
theorem commentRest_sublist (l rem : List Char)
    (h : commentRest l = some rem) : List.Sublist rem l := by
  match l with
  | [] => simp [commentRest] at h
  | e :: rest3 =>
    rw [commentRest] at h
    split at h
    · split at h
      next f rest4 heq =>
        split at h
        · have h1 : List.Sublist rem rest4 := findCloser_sublist _ _ _ h
          have h2 : List.Sublist (f :: rest4) rest3 :=
            heq ▸ (List.dropWhile_suffix _).sublist
          exact ((h1.trans (List.sublist_cons_self f rest4)).trans h2).trans
            (List.sublist_cons_self e rest3)
        · exact absurd h (by simp)
      next heq => exact absurd h (by simp)
    · exact absurd h (by simp)

/-- The scanner only deletes characters: its output is a sublist of its
input in every mode, for every fuel. -/
theorem scan_sublist (fuel : Nat) (m : ScanMode) (l : List Char) :
    List.Sublist (scan fuel m l) l := by
  induction fuel, m, l using scan.induct with
  | case1 fuel x => simp [scan]
  | case2 x c rest => simp [scan]
  | case3 fuel => simp [scan]
  | case4 fuel c rest ih =>
    have e : scan (fuel + 1) .inSQuote (bslashChar :: c :: rest) =
        bslashChar :: c :: scan fuel .inSQuote rest := by
      simp [scan]
    rw [e]; exact (ih.cons₂ c).cons₂ bslashChar
  | case5 fuel rest h ih =>
    have e : scan (fuel + 1) .inSQuote (squoteChar :: rest) =
        squoteChar :: scan fuel .normal rest := by
      cases rest <;> simp [scan, h]
    rw [e]; exact ih.cons₂ squoteChar
  | case6 fuel c rest h1 h2 ih =>
    have e : scan (fuel + 1) .inSQuote (c :: rest) =
        c :: scan fuel .inSQuote rest := by
      cases rest <;> simp [scan, h1, h2]
    rw [e]; exact ih.cons₂ c
  | case7 fuel => simp [scan]
  | case8 fuel c rest ih =>
    have e : scan (fuel + 1) .inDQuote (bslashChar :: c :: rest) =
        bslashChar :: c :: scan fuel .inDQuote rest := by
      simp [scan]
    rw [e]; exact (ih.cons₂ c).cons₂ bslashChar
  | case9 fuel rest h ih =>
    have e : scan (fuel + 1) .inDQuote (dquoteChar :: rest) =
        dquoteChar :: scan fuel .normal rest := by
      cases rest <;> simp [scan, h]
    rw [e]; exact ih.cons₂ dquoteChar
  | case10 fuel c rest h1 h2 ih =>
    have e : scan (fuel + 1) .inDQuote (c :: rest) =
        c :: scan fuel .inDQuote rest := by
      cases rest <;> simp [scan, h1, h2]
    rw [e]; exact ih.cons₂ c
  | case11 fuel lvl c rest hcond ih =>
    obtain ⟨hc, hlen, hhead⟩ := hcond
    subst hc
    have e : scan (fuel + 1) (.inLong lvl) (']' :: rest) =
        ']' :: (List.takeWhile (fun x => decide (x = '=')) rest ++
          ']' :: scan fuel .normal
            (List.dropWhile (fun x => decide (x = '=')) rest).tail) := by
      simp [scan, hlen, hhead]
    rw [e]
    have hr : rest = List.takeWhile (fun x => decide (x = '=')) rest ++
        ']' :: (List.dropWhile (fun x => decide (x = '=')) rest).tail := by
      conv_lhs => rw [← List.takeWhile_append_dropWhile
        (fun x => decide (x = '=')) rest, ← List.cons_head?_tail hhead]
    conv_rhs => rw [hr]
    exact ((ih.cons₂ ']').append_left _).cons₂ ']'
  | case12 fuel lvl c rest hcond ih =>
    have e : scan (fuel + 1) (.inLong lvl) (c :: rest) =
        c :: scan fuel (.inLong lvl) rest := by
      simp [scan, hcond]
    rw [e]; exact ih.cons₂ c
  | case13 fuel rest ih =>
    have e : scan (fuel + 1) .normal (squoteChar :: rest) =
        squoteChar :: scan fuel .inSQuote rest := by
      simp [scan]
    rw [e]; exact ih.cons₂ squoteChar
  | case14 fuel rest h ih =>
    have e : scan (fuel + 1) .normal (dquoteChar :: rest) =
        dquoteChar :: scan fuel .inDQuote rest := by
      simp [scan, h]
    rw [e]; exact ih.cons₂ dquoteChar
  | case15 fuel c rest h1 h2 hcond ih =>
    obtain ⟨hc, hhead⟩ := hcond
    subst hc
    have e : scan (fuel + 1) .normal ('[' :: rest) =
        '[' :: (List.takeWhile (fun x => decide (x = '=')) rest ++
          '[' :: scan fuel
            (.inLong (List.takeWhile (fun x => decide (x = '=')) rest).length)
            (List.dropWhile (fun x => decide (x = '=')) rest).tail) := by
      simp [scan, h1, h2, hhead]
    rw [e]
    have hr : rest = List.takeWhile (fun x => decide (x = '=')) rest ++
        '[' :: (List.dropWhile (fun x => decide (x = '=')) rest).tail := by
      conv_lhs => rw [← List.takeWhile_append_dropWhile
        (fun x => decide (x = '=')) rest, ← List.cons_head?_tail hhead]
    conv_rhs => rw [hr]
    exact ((ih.cons₂ '[').append_left _).cons₂ '['
  | case16 fuel c rest h1 h2 h3 hcond rem hrem ih =>
    obtain ⟨hc, hdash⟩ := hcond
    subst hc
    have e : scan (fuel + 1) .normal ('-' :: rest) = scan fuel .normal rem := by
      simp only [scan, h1, h2, h3, hdash, and_true, and_self, if_true, if_false,
        reduceIte, not_false_eq_true]
      split
      next rem2 hrem2 =>
        rw [hrem] at hrem2
        injection hrem2 with hr2
        rw [hr2]
      next hrem2 => rw [hrem] at hrem2; simp at hrem2
    rw [e]
    exact ((ih.trans (commentRest_sublist _ _ hrem)).trans
      ((List.tail_sublist rest).trans (List.sublist_cons_self '-' rest)))
  | case17 fuel c rest h1 h2 h3 hcond hrem =>
    obtain ⟨hc, hdash⟩ := hcond
    subst hc
    have e : scan (fuel + 1) .normal ('-' :: rest) = [] := by
      simp only [scan, h1, h2, h3, hdash, and_true, and_self, if_true, if_false,
        reduceIte, not_false_eq_true]
      split
      next rem2 hrem2 => rw [hrem] at hrem2; simp at hrem2
      next hrem2 => rfl
    rw [e]
    exact List.nil_sublist _
  | case18 fuel c rest h1 h2 h3 h4 ih =>
    have e : scan (fuel + 1) .normal (c :: rest) = c :: scan fuel .normal rest := by
      simp [scan, h1, h2, h3, h4]
    rw [e]; exact ih.cons₂ c

/-- Trimming only deletes characters at the two ends. -/
theorem trimChars_sublist (l : List Char) : List.Sublist (trimChars l) l := by
  unfold trimChars
  have h1 : List.Sublist (l.dropWhile Char.isWhitespace) l :=
    (List.dropWhile_suffix _).sublist
  have h2 : List.Sublist
      ((l.dropWhile Char.isWhitespace).reverse.dropWhile Char.isWhitespace).reverse
      (l.dropWhile Char.isWhitespace) := by
    have h3 := (List.dropWhile_suffix
      (l := (l.dropWhile Char.isWhitespace).reverse) Char.isWhitespace).sublist
    have h4 := h3.reverse
    rwa [List.reverse_reverse] at h4
  exact h2.trans h1

/-! ## Parameter numbering invariant (for C8) -/

/-- The parameters of a list are numbered consecutively starting at `k`. -/
def numberedFrom : Nat → List Parameter → Prop
  | _, [] => True
  | k, p :: ps => p.number = k ∧ numberedFrom (k + 1) ps

theorem numberedFrom_append_one (k : Nat) (ps : List Parameter) (p : Parameter)
    (h : numberedFrom k ps) (hp : p.number = k + ps.length) :
    numberedFrom k (ps ++ [p]) := by
  induction ps generalizing k with
  | nil => simpa [numberedFrom] using hp
  | cons q ps ih =>
    obtain ⟨hq, hrest⟩ := h
    refine ⟨hq, ih (k + 1) hrest ?_⟩
    simp only [List.length_cons] at hp
    omega

theorem numberedFrom_get (k : Nat) (ps : List Parameter) (h : numberedFrom k ps) :
    ∀ i (hi : i < ps.length), (ps.get ⟨i, hi⟩).number = k + i := by
  induction ps generalizing k with
  | nil => intro i hi; simp at hi
  | cons q ps ih =>
    intro i hi
    cases i with
    | zero => simpa using h.1
    | succ j =>
      have hj : j < ps.length := by simpa using Nat.lt_of_succ_lt_succ hi
      have := ih (k + 1) h.2 j hj
      simp only [List.get_cons_succ]
      omega

/-- `docStep` preserves consecutive numbering of the accumulated parameter
list (the `@param` arm appends a parameter whose `number` is the current
length). -/
theorem docStep_numbered (st : DocBlock × String) (line : String)
    (h : numberedFrom 0 st.1.parameters) :
    numberedFrom 0 (docStep st line).1.parameters := by
  unfold docStep
  simp only []
  repeat' split
  all_goals try exact h
  all_goals exact numberedFrom_append_one 0 _ _ h (by simp)

theorem foldl_docStep_numbered (buf : List String) (st : DocBlock × String)
    (h : numberedFrom 0 st.1.parameters) :
    numberedFrom 0 ((buf.foldl docStep st).1.parameters) := by
  induction buf generalizing st with
  | nil => exact h
  | cons l rest ih => exact ih _ (docStep_numbered st l h)

/-- Every `DocBlock` built by `create_docblock` has consecutively numbered
parameters. -/
theorem create_docblock_numbered (buf : List String) :
    numberedFrom 0 (create_docblock buf).parameters :=
  foldl_docStep_numbered buf (emptyBlock, "") trivial

/-- Every emitted block in the state has consecutively numbered parameters. -/
def blocksNumbered (bs : List DocBlock) : Prop :=
  ∀ b ∈ bs, numberedFrom 0 b.parameters

theorem finalize_numbered (st st' : ParseState) (h : finalize st = some st')
    (hb : blocksNumbered st.doc_blocks) : blocksNumbered st'.doc_blocks := by
  unfold finalize at h
  simp only [] at h
  split at h
  · injection h with h
    subst h
    exact hb
  · split at h
    · injection h with h
      subst h
      intro b hbmem
      rcases List.mem_append.mp hbmem with hold | hnew
      · exact hb b hold
      · rw [List.mem_singleton.mp hnew]
        exact create_docblock_numbered st.line_buf
    · split at h
      next mem hmem =>
        injection h with h
        subst h
        intro b hbmem
        rcases List.mem_append.mp hbmem with hold | hnew
        · exact hb b hold
        · rw [List.mem_singleton.mp hnew]
          exact create_docblock_numbered st.line_buf
      next => exact absurd h (by simp)

theorem parseStep_numbered (st : ParseState) (l : String) (st' : ParseState)
    (h : parseStep st l = some st')
    (hb : blocksNumbered st.doc_blocks) : blocksNumbered st'.doc_blocks := by
  unfold parseStep at h
  simp only [] at h
  split at h
  · injection h with h; subst h; exact hb
  · split at h
    · injection h with h; subst h; exact hb
    · split at h
      · split at h
        · injection h with h; subst h; exact hb
        · split at h
          · exact finalize_numbered _ _ h hb
          · injection h with h; subst h; exact hb
      · split at h
        · split at h
          · exact finalize_numbered _ _ h hb
          · injection h with h; subst h; exact hb
        · injection h with h; subst h; exact hb

theorem foldlM_parseStep_numbered (lines : List String) (st : ParseState)
    (h : blocksNumbered st.doc_blocks) (st' : ParseState)
    (hf : lines.foldlM parseStep st = some st') :
    blocksNumbered st'.doc_blocks := by
  induction lines generalizing st with
  | nil =>
    simp only [List.foldlM_nil, pure, Option.some.injEq] at hf
    subst hf
    exact h
  | cons l rest ih =>
    rw [List.foldlM_cons] at hf
    cases hstep : parseStep st l with
    | none => rw [hstep] at hf; simp at hf
    | some st1 =>
      rw [hstep] at hf
      simp only [Option.bind_eq_bind, Option.some_bind] at hf
      exact ih st1 (parseStep_numbered st l st1 hstep h) hf

/-! ## Claim theorems -/

/-- C1: the claim says parsing never aborts the run and that a documented
declaration whose stripped code line contains a `.` but no parenthesis
(`-- @brief x` followed by `function a.b end`) is classified without a
failure.  The code violates this: `is_member_function` calls
`line.find("(").unwrap()`, which panics on that line, and `parse`
propagates the panic (modelled as `none`), aborting the whole run. -/
theorem C1_parse_aborts_on_dot_without_paren :
    parse ["-- @brief x", "function a.b end"] = Option.none ∧
    is_member_function "function a.b end" "a" = Option.none := by
  constructor
  · rfl
  · rfl

/-- C2 (counterexample): for the input lines
`["-- @brief X", "", "function f() end"]` the claim says `parse` yields
exactly one Document; in fact it yields none. -/
theorem C2_counterexample :
    ¬ ((parse ["-- @brief X", "", "function f() end"]).map List.length =
      some 1) := by
  intro h
  rw [show parse ["-- @brief X", "", "function f() end"] = some [] from rfl] at h
  simp at h

/-- C2 (amended): for those lines `parse` yields no Document at all: the
blank line clears the buffer, and a declaration reached with an empty
buffer emits nothing (moreover `function f() end` contains `(` without
ending in `)`, so the driver treats it as the start of a multi-line
declaration that is never finished). -/
theorem C2_blank_line_severs_and_no_document :
    parse ["-- @brief X", "", "function f() end"] = some [] := by
  rfl

/-- C3: the claim (and the code's own comment) says that a `.`-style
signature whose single parenthesized parameter equals the owner object,
`function A.f(A) end` with owner `"A"`, is classified `is_member = true`.
The code returns `false`: it compares the slice `&line[left..right]`,
which still contains the opening parenthesis (`"(A"`), against `"A"`. -/
theorem C3_single_param_owner_not_member :
    extract_owner_object "function A.f(A) end" = "A" ∧
    is_member_function "function A.f(A) end" "A" = some false := by
  constructor
  · rfl
  · rfl

/-- C4 (counterexample): the claim says the Returns line presents the
return value as `type_name: description` with the name absent; the
rendered line is `**Returns:**  (number): the result` — the type sits in
parentheses after the (empty) name slot, and the text
`number: the result` never occurs in it. -/
theorem C4_counterexample :
    MarkdownFormatter.format_return (some ⟨"", 0, "the result", "number"⟩) =
      "**Returns:**  (number): the result\n\n" ∧
    ¬ List.IsInfix "number: the result".data
      (MarkdownFormatter.format_return
        (some ⟨"", 0, "the result", "number"⟩)).data := by
  constructor
  · rfl
  · decide

/-- C4 (amended): when `return_value` is present the Returns line is
rendered as `**Returns:** name (type_name): description` (the Parameter's
`name` slot is printed, empty for returns built by the tag parser); when
it is absent the Returns section contributes the empty string. -/
theorem C4_return_line_format :
    (∀ p : Parameter,
      MarkdownFormatter.format_return (some p) =
        "**Returns:** " ++ p.name ++ " (" ++ p.type_name ++ "): " ++
          p.description ++ "\n\n") ∧
    MarkdownFormatter.format_return Option.none = "" := by
  constructor
  · intro p
    rfl
  · rfl

/-- C5: building a Document from the buffered comment lines
`["-- @brief does a thing", "-- @param x number the x value",
"-- @return number the result"]` produces the claimed `brief`,
`parameters` and `return_value`. -/
theorem C5_tag_parse_round_trip :
    (create_docblock ["-- @brief does a thing", "-- @param x number the x value",
      "-- @return number the result"]).brief = "does a thing" ∧
    (create_docblock ["-- @brief does a thing", "-- @param x number the x value",
      "-- @return number the result"]).parameters =
      [⟨"x", 0, "the x value", "number"⟩] ∧
    (create_docblock ["-- @brief does a thing", "-- @param x number the x value",
      "-- @return number the result"]).ret_value =
      some ⟨"", 0, "the result", "number"⟩ := by
  refine ⟨?_, ?_, ?_⟩ <;> rfl

/-- C6: the signature classifier (as applied by `parse` to a finalized
signature) maps `function Obj:method(a, b) end` to owner `"Obj"` and
member; `function Obj.helper(x, y) end` to non-member; and
`local function f(x) end` to local with empty owner and non-member. -/
theorem C6_member_classification :
    classify_signature "function Obj:method(a, b) end" =
      some ("Obj", false, true) ∧
    classify_signature "function Obj.helper(x, y) end" =
      some ("Obj", false, false) ∧
    classify_signature "local function f(x) end" =
      some ("", true, false) := by
  refine ⟨?_, ?_, ?_⟩ <;> rfl

/-- C7: `strip_comment` removes a long-bracket comment opened and closed on
the same line together with its delimiters, keeps the surrounding code,
and trims the ends: `"x = 1 --[[ inline ]] y = 2"` becomes
`"x = 1  y = 2"`. -/
theorem C7_block_comment_stripped_same_line :
    strip_comment "x = 1 --[[ inline ]] y = 2" = "x = 1  y = 2" := by
  rfl

/-- C8: every Document emitted by `parse` has consecutively numbered
parameters: `parameters[i].number = i` for every index `i` (the Documents
are emitted in file order as the declarations are finalized, and every
`@param` line appends a parameter numbered with the current count). -/
theorem C8_parameters_numbered (lines : List String) (docs : List DocBlock)
    (h : parse lines = some docs) (d : DocBlock) (hd : d ∈ docs)
    (i : Nat) (hi : i < d.parameters.length) :
    (d.parameters.get ⟨i, hi⟩).number = i := by
  unfold parse at h
  cases hst : lines.foldlM parseStep ⟨[], [], "", false⟩ with
  | none => rw [hst] at h; simp at h
  | some st =>
    rw [hst] at h
    simp only [Option.bind_eq_bind, Option.some_bind, pure, Option.some.injEq] at h
    subst h
    have hall := foldlM_parseStep_numbered lines _ (by intro b hb; simp at hb) st hst
    simpa using numberedFrom_get 0 d.parameters (hall d hd) i hi

/-- Input for the C8 witness: one documented declaration with two
parameters. -/
def C8lines : List String :=
  ["-- @brief b", "-- @param x number d1", "-- @param y number d2",
   "function f(x, y)"]

/-- The unique `DocBlock` that `parse C8lines` emits. -/
def C8doc : DocBlock where
  signature := "function f(x, y)"
  brief := "b"
  note := ""
  includes := []
  parameters := [⟨"x", 0, "d1", "number"⟩, ⟨"y", 1, "d2", "number"⟩]
  descriptions := []
  ret_value := Option.none
  owner_object := ""
  is_local := false
  is_member := false

theorem C8_parameters_numbered_witness :
    parse C8lines = some [C8doc] ∧
    (C8doc.parameters.get ⟨1, by decide⟩).number = 1 :=
  ⟨by rfl,
   C8_parameters_numbered C8lines [C8doc] (by rfl) C8doc (by simp) 1 (by decide)⟩

/-- C9: rendering is total despite its fallible type: for every list of
Documents, `MarkdownFormatter.format` returns `Ok` of some string; its
error branch is unreachable. -/
theorem C9_format_total (blocks : List DocBlock) :
    ∃ s, MarkdownFormatter.format blocks = Except.ok s :=
  ⟨_, rfl⟩

/-- C10: for every input line, `strip_comment` only deletes characters:
its output is a sublist (subsequence) of the input's code points, in the
same relative order — nothing is inserted or reordered. -/
theorem C10_strip_comment_sublist (line : String) :
    List.Sublist (strip_comment line).data line.data :=
  (trimChars_sublist (scan line.data.length .normal line.data)).trans
    (scan_sublist line.data.length .normal line.data)

end ToDocument
